import Mathlib

/-!
Shallow embedding of `src/index.js` of BobbyGerace/expression-parser.

Strings are modelled by Lean `String`; the parser's input cursor works on
`List Char` (the `data` of the input string), mirroring the character-wise
JS code.  JS numbers are modelled as exact rationals `ℚ`; the only places
where this is not exact are marked by explicit comments (transcendental
built-ins, `Math.pow` with a non-integer exponent, `Infinity`).

The JS parser is a set of mutually recursive procedures mutating a token
cursor and two stacks; we thread an explicit state and use a fuel
parameter for the (terminating) loops.  Running out of fuel models
nontermination and cannot occur on the inputs used below.
-/

namespace ExpressionParser

abbrev Err := String

/-- `const binaryOperators = { '-': 2, '+': 1, '*': 3, '/': 4, '^': 5 }`:
JS object lookup returns `undefined` (here `none`) for absent keys. -/
def binaryOperators (s : String) : Option Int :=
  if s = "-" then some 2
  else if s = "+" then some 1
  else if s = "*" then some 3
  else if s = "/" then some 4
  else if s = "^" then some 5
  else none

/-- `const unaryOperators = { '-': 6 }` -/
def unaryOperators (s : String) : Option Int :=
  if s = "-" then some 6 else none

/-- `const variableChars = 'ABCDEFGHIJKLMNOPQRSTUVWXYZabcdefghijklmnopqrstuvwxyz0123456789_'` -/
def variableChars : List Char :=
  "ABCDEFGHIJKLMNOPQRSTUVWXYZabcdefghijklmnopqrstuvwxyz0123456789_".data

/-- `const d = '1234567890.'` -/
def d : List Char := "1234567890.".data

/-- The AST node classes (`Node`, `UnOp`, `BinOp`, `Var`, `Num`, `Func`,
`Sentinel`) as one closed variant set.  `undef` stands for the JS value
`undefined`, which appears as the not-yet-set operand slots of a freshly
constructed operator node and as the result of `pop()` on an empty array. -/
inductive Node where
  | num (value : String)
  | var (value : String)
  | unOp (value : String) (left : Node)
  | binOp (value : String) (left : Node) (right : Node)
  | func (value : String) (length : Nat) (args : List Node)
  | sentinel
  | undef

mutual

def nodeDecEq : (a b : Node) → Decidable (a = b)
  | .num x, .num y =>
    match String.decEq x y with
    | .isTrue h => .isTrue (by rw [h])
    | .isFalse h => .isFalse (fun e => by injection e with e1; exact absurd e1 h)
  | .num _, .var _ => .isFalse (fun h => Node.noConfusion h)
  | .num _, .unOp _ _ => .isFalse (fun h => Node.noConfusion h)
  | .num _, .binOp _ _ _ => .isFalse (fun h => Node.noConfusion h)
  | .num _, .func _ _ _ => .isFalse (fun h => Node.noConfusion h)
  | .num _, .sentinel => .isFalse (fun h => Node.noConfusion h)
  | .num _, .undef => .isFalse (fun h => Node.noConfusion h)
  | .var _, .num _ => .isFalse (fun h => Node.noConfusion h)
  | .var x, .var y =>
    match String.decEq x y with
    | .isTrue h => .isTrue (by rw [h])
    | .isFalse h => .isFalse (fun e => by injection e with e1; exact absurd e1 h)
  | .var _, .unOp _ _ => .isFalse (fun h => Node.noConfusion h)
  | .var _, .binOp _ _ _ => .isFalse (fun h => Node.noConfusion h)
  | .var _, .func _ _ _ => .isFalse (fun h => Node.noConfusion h)
  | .var _, .sentinel => .isFalse (fun h => Node.noConfusion h)
  | .var _, .undef => .isFalse (fun h => Node.noConfusion h)
  | .unOp _ _, .num _ => .isFalse (fun h => Node.noConfusion h)
  | .unOp _ _, .var _ => .isFalse (fun h => Node.noConfusion h)
  | .unOp v1 l1, .unOp v2 l2 =>
    match String.decEq v1 v2, nodeDecEq l1 l2 with
    | .isTrue h1, .isTrue h2 => .isTrue (by rw [h1, h2])
    | .isFalse h1, _ =>
      .isFalse (fun e => by injection e with e1 e2; exact absurd e1 h1)
    | _, .isFalse h2 =>
      .isFalse (fun e => by injection e with e1 e2; exact absurd e2 h2)
  | .unOp _ _, .binOp _ _ _ => .isFalse (fun h => Node.noConfusion h)
  | .unOp _ _, .func _ _ _ => .isFalse (fun h => Node.noConfusion h)
  | .unOp _ _, .sentinel => .isFalse (fun h => Node.noConfusion h)
  | .unOp _ _, .undef => .isFalse (fun h => Node.noConfusion h)
  | .binOp _ _ _, .num _ => .isFalse (fun h => Node.noConfusion h)
  | .binOp _ _ _, .var _ => .isFalse (fun h => Node.noConfusion h)
  | .binOp _ _ _, .unOp _ _ => .isFalse (fun h => Node.noConfusion h)
  | .binOp v1 l1 r1, .binOp v2 l2 r2 =>
    match String.decEq v1 v2, nodeDecEq l1 l2, nodeDecEq r1 r2 with
    | .isTrue h1, .isTrue h2, .isTrue h3 => .isTrue (by rw [h1, h2, h3])
    | .isFalse h1, _, _ =>
      .isFalse (fun e => by injection e with e1 e2 e3; exact absurd e1 h1)
    | _, .isFalse h2, _ =>
      .isFalse (fun e => by injection e with e1 e2 e3; exact absurd e2 h2)
    | _, _, .isFalse h3 =>
      .isFalse (fun e => by injection e with e1 e2 e3; exact absurd e3 h3)
  | .binOp _ _ _, .func _ _ _ => .isFalse (fun h => Node.noConfusion h)
  | .binOp _ _ _, .sentinel => .isFalse (fun h => Node.noConfusion h)
  | .binOp _ _ _, .undef => .isFalse (fun h => Node.noConfusion h)
  | .func _ _ _, .num _ => .isFalse (fun h => Node.noConfusion h)
  | .func _ _ _, .var _ => .isFalse (fun h => Node.noConfusion h)
  | .func _ _ _, .unOp _ _ => .isFalse (fun h => Node.noConfusion h)
  | .func _ _ _, .binOp _ _ _ => .isFalse (fun h => Node.noConfusion h)
  | .func v1 n1 a1, .func v2 n2 a2 =>
    match String.decEq v1 v2, Nat.decEq n1 n2, nodeListDecEq a1 a2 with
    | .isTrue h1, .isTrue h2, .isTrue h3 => .isTrue (by rw [h1, h2, h3])
    | .isFalse h1, _, _ =>
      .isFalse (fun e => by injection e with e1 e2 e3; exact absurd e1 h1)
    | _, .isFalse h2, _ =>
      .isFalse (fun e => by injection e with e1 e2 e3; exact absurd e2 h2)
    | _, _, .isFalse h3 =>
      .isFalse (fun e => by injection e with e1 e2 e3; exact absurd e3 h3)
  | .func _ _ _, .sentinel => .isFalse (fun h => Node.noConfusion h)
  | .func _ _ _, .undef => .isFalse (fun h => Node.noConfusion h)
  | .sentinel, .num _ => .isFalse (fun h => Node.noConfusion h)
  | .sentinel, .var _ => .isFalse (fun h => Node.noConfusion h)
  | .sentinel, .unOp _ _ => .isFalse (fun h => Node.noConfusion h)
  | .sentinel, .binOp _ _ _ => .isFalse (fun h => Node.noConfusion h)
  | .sentinel, .func _ _ _ => .isFalse (fun h => Node.noConfusion h)
  | .sentinel, .sentinel => .isTrue rfl
  | .sentinel, .undef => .isFalse (fun h => Node.noConfusion h)
  | .undef, .num _ => .isFalse (fun h => Node.noConfusion h)
  | .undef, .var _ => .isFalse (fun h => Node.noConfusion h)
  | .undef, .unOp _ _ => .isFalse (fun h => Node.noConfusion h)
  | .undef, .binOp _ _ _ => .isFalse (fun h => Node.noConfusion h)
  | .undef, .func _ _ _ => .isFalse (fun h => Node.noConfusion h)
  | .undef, .sentinel => .isFalse (fun h => Node.noConfusion h)
  | .undef, .undef => .isTrue rfl

def nodeListDecEq : (a b : List Node) → Decidable (a = b)
  | [], [] => .isTrue rfl
  | [], _ :: _ => .isFalse (fun h => List.noConfusion h)
  | _ :: _, [] => .isFalse (fun h => List.noConfusion h)
  | x :: xs, y :: ys =>
    match nodeDecEq x y, nodeListDecEq xs ys with
    | .isTrue h1, .isTrue h2 => .isTrue (by rw [h1, h2])
    | .isFalse h1, _ =>
      .isFalse (fun e => by injection e with e1 e2; exact absurd e1 h1)
    | _, .isFalse h2 =>
      .isFalse (fun e => by injection e with e1 e2; exact absurd e2 h2)

end

instance : DecidableEq Node := nodeDecEq

/-- `Func.getPrecedence` returns `Infinity`: any value strictly above every
finite table precedence (all of which lie in 1..6) behaves identically. -/
def funcPrecedence : Int := 1000000

/-- `Sentinel.getPrecedence` returns `-Infinity`: any value strictly below
every finite table precedence behaves identically. -/
def sentinelPrecedence : Int := -1000000

/-- `getPrecedence` by dynamic dispatch.  The base-class implementation
(`Num`, `Var`, and `undefined` receivers) throws `Invalid syntax`; a
`BinOp`/`UnOp` whose operator is absent from the table yields JS
`undefined`, modelled by `none`. -/
def getPrecedence : Node → Except Err (Option Int)
  | Node.binOp v _ _ => pure (binaryOperators v)
  | Node.unOp v _ => pure (unaryOperators v)
  | Node.func _ _ _ => pure (some funcPrecedence)
  | Node.sentinel => pure (some sentinelPrecedence)
  | _ => throw "Invalid syntax"

/-- JS `<` on two possibly-`undefined` numbers: any comparison involving
`undefined` (NaN after coercion) is false. -/
def ltJS : Option Int → Option Int → Bool
  | some a, some b => a < b
  | _, _ => false

/-- `operands.pop()`: popping an empty JS array yields `undefined`. -/
def popVal : List Node → Node × List Node
  | [] => (Node.undef, [])
  | v :: rest => (v, rest)

/-- `new BinOp(t)` — operand slots start out `undefined`. -/
def binary (t : String) : Node := Node.binOp t Node.undef Node.undef

/-- `new UnOp(t)` -/
def unary (t : String) : Node := Node.unOp t Node.undef

/-- `popOperator`: pop an operator off `operators`, pop its operands off
`operands`, attach them, push the finished node onto `operands`.
`instanceof BinOp` is tested before `instanceof UnOp` (BinOp extends UnOp);
our constructors are disjoint so the match order is immaterial.  For a
`Func` of declared arity `length` holding `args`, the JS loop pops until
`args.length == length`, `unshift`-ing each popped operand, so the final
argument list is the popped operands in original source order followed by
the previously stored ones; pops beyond the stack yield `undefined`.
When the top is a sentinel (or the stack is empty, or a non-operator is on
top) nothing at all happens, exactly as in JS where no branch applies. -/
def popOperator (ops vals : List Node) : List Node × List Node :=
  match ops with
  | Node.binOp v _ _ :: ops1 =>
    let (t1, vals1) := popVal vals
    let (t0, vals2) := popVal vals1
    (ops1, Node.binOp v t0 t1 :: vals2)
  | Node.unOp v _ :: ops1 =>
    let (t, vals1) := popVal vals
    (ops1, Node.unOp v t :: vals1)
  | Node.func v len args :: ops1 =>
    let k := len - args.length
    let popped := (vals.take k ++ List.replicate (k - vals.length) Node.undef).reverse
    (ops1, Node.func v len (popped ++ args) :: vals.drop k)
  | _ => (ops, vals)

/-- The loop of `pushOperator`:
`while (operators.length && op.getPrecedence() < top(operators).getPrecedence())
   popOperator(...)`
followed by `operators.push(op)`.  Every reducible top strictly shrinks the
stack, so `ops.length + 1` fuel (supplied by `pushOperator`) always
suffices; exhaustion models the JS infinite loop on a stuck top.
(Fuel recursions are spelled with `Nat.rec` so that they evaluate by plain
iterated reduction; the definitional unfolding lemmas follow below.) -/
def pushOpGo : Nat → Node → List Node → List Node →
    Except Err (List Node × List Node) :=
  fun fuel =>
    Nat.rec
      (motive := fun _ => Node → List Node → List Node →
        Except Err (List Node × List Node))
      (fun _ _ _ => throw "out of fuel")
      (fun _ ih op ops vals =>
        match ops with
        | [] => pure (op :: ops, vals)
        | topNode :: _ => do
          let p1 ← getPrecedence op
          let p2 ← getPrecedence topNode
          if ltJS p1 p2 then
            let (o, v) := popOperator ops vals
            ih op o v
          else
            pure (op :: ops, vals))
      fuel

theorem pushOpGo_zero (op : Node) (ops vals : List Node) :
    pushOpGo 0 op ops vals = throw "out of fuel" := rfl

theorem pushOpGo_succ (fuel : Nat) (op : Node) (ops vals : List Node) :
    pushOpGo (fuel + 1) op ops vals =
      (match ops with
      | [] => pure (op :: ops, vals)
      | topNode :: _ => do
        let p1 ← getPrecedence op
        let p2 ← getPrecedence topNode
        if ltJS p1 p2 then
          let (o, v) := popOperator ops vals
          pushOpGo fuel op o v
        else
          pure (op :: ops, vals)) := rfl

/-- `pushOperator` -/
def pushOperator (op : Node) (ops vals : List Node) :
    Except Err (List Node × List Node) :=
  pushOpGo (ops.length + 1) op ops vals

/-- The drain loop at the end of `E`:
`while (!(top(operators) instanceof Sentinel)) popOperator(...)`.
On an empty stack `top` is `undefined`, which is not a sentinel, and
`popOperator` then does nothing: the JS loop diverges; fuel exhaustion
models that (unreachable from `parse`, which keeps a sentinel below). -/
def Edrain : Nat → List Node → List Node →
    Except Err (List Node × List Node) :=
  fun fuel =>
    Nat.rec
      (motive := fun _ => List Node → List Node →
        Except Err (List Node × List Node))
      (fun _ _ => throw "out of fuel")
      (fun _ ih ops vals =>
        match ops with
        | Node.sentinel :: _ => pure (ops, vals)
        | _ =>
          let (o, v) := popOperator ops vals
          ih o v)
      fuel

theorem Edrain_zero (ops vals : List Node) :
    Edrain 0 ops vals = throw "out of fuel" := rfl

theorem Edrain_succ (fuel : Nat) (ops vals : List Node) :
    Edrain (fuel + 1) ops vals =
      (match ops with
      | Node.sentinel :: _ => pure (ops, vals)
      | _ =>
        let (o, v) := popOperator ops vals
        Edrain fuel o v) := rfl

/-- JS `/\s/` on the ASCII characters this grammar can meet. -/
def isSpaceJS (c : Char) : Bool :=
  c == ' ' || c == '\t' || c == '\n' || c == '\r'

/-- `elem(ch, set)` for a character: `set.indexOf(ch) > -1`. -/
def elemChar (c : Char) (set : List Char) : Bool := set.contains c

/-- `elem(ch, set)`: `ch.length > 0 && set.indexOf(ch[0]) > -1`. -/
def elem (s : String) (set : List Char) : Bool :=
  match s.data with
  | [] => false
  | c :: _ => elemChar c set

/-- `readVar(str)`: take the maximal run of `variableChars`, lowercase it,
return it with the unconsumed remainder. -/
def readVar (str : List Char) : String × List Char :=
  let result := str.takeWhile (fun c => elemChar c variableChars)
  (String.mk (result.map Char.toLower), str.drop result.length)

/-- `readNumber(str)`: take the maximal run of characters of `d`; the JS
loop counts each `'.'` just before appending it (the breaking character is
never `'.'`, since `'.' ∈ d`), so `periodCount` is the number of periods in
the captured run.  More than one period is a lex failure. -/
def readNumber (str : List Char) : Except Err (String × List Char) :=
  let result := str.takeWhile (fun c => elemChar c d)
  let periodCount := result.count '.'
  if periodCount > 1 then
    throw (String.mk ("Invalid Number: ".data ++ result))
  else
    pure (String.mk result, str.drop result.length)

/-- `_consume(str)`: skip whitespace, classify one token.  The JS leading
`str.length === 0` early return is subsumed by the emptiness check after
whitespace skipping. -/
def tokenize (str : List Char) : Except Err (String × List Char) :=
  let str1 := str.dropWhile isSpaceJS
  match str1 with
  | [] => pure ("", [])
  | ch :: rest1 =>
    if (binaryOperators (String.mk [ch])).isSome
        || (unaryOperators (String.mk [ch])).isSome
        || ch == '(' || ch == ')' || ch == ',' then
      pure (String.mk [ch], rest1)
    else if elemChar ch d then
      readNumber str1
    else if elemChar ch variableChars then
      pure (readVar str1)
    else
      throw (String.mk ("Invalid syntax at \"".data ++ [ch] ++ "\"".data))

/-- The mutable state of one `parse` call: the current token `next`, the
unconsumed remainder `rest`, and the operator and operand stacks (heads are
the stack tops). -/
structure PSt where
  next : String
  rest : List Char
  ops : List Node
  vals : List Node
deriving DecidableEq

/-- `consume()` -/
def consume (st : PSt) : Except Err PSt := do
  let (n, r) ← tokenize st.rest
  pure { st with next := n, rest := r }

/-- `expect(tok)` -/
def expect (tok : String) (st : PSt) : Except Err PSt :=
  if st.next = tok then consume st
  else if st.next = "" then throw "Unexpected end of input"
  else throw (String.mk ("Unexpected \"".data ++ st.next.data ++ "\"".data))

/-- `isNumber(str)` -/
def isNumber (s : String) : Bool := elem s d

/-- `isVariable(str)` -/
def isVariable (s : String) : Bool := elem s variableChars

/-- After `F` the operator stack is `sentinel :: Func name 0 [] :: _`; the
JS code mutated that `Func`'s `length` field in place while it sat on the
stack (nothing reads the field before the sentinel above it is popped), so
the embedding writes the final count into the entry once `F` is done. -/
def setFuncLength (n : Nat) (ops : List Node) : List Node :=
  match ops with
  | Node.func v _ args :: rest => Node.func v n args :: rest
  | other => other

/-- One fuel level of the five mutually recursive parsing procedures
`E`, its binary-operator loop, `P`, `F`, and `F`'s comma loop. -/
structure ParserFns where
  fE : PSt → Except Err PSt
  fEloop : PSt → Except Err PSt
  fP : PSt → Except Err PSt
  fF : PSt → Except Err (Nat × PSt)
  fFloop : Nat → PSt → Except Err (Nat × PSt)

/-- Out of fuel at depth zero. -/
def fuelZero : ParserFns where
  fE := fun _ => throw "out of fuel"
  fEloop := fun _ => throw "out of fuel"
  fP := fun _ => throw "out of fuel"
  fF := fun _ => throw "out of fuel"
  fFloop := fun _ _ => throw "out of fuel"

/-- The bodies of the five procedures, with every recursive call going
through the previous fuel level `prev`. -/
def fuelStep (prev : ParserFns) : ParserFns where
  /- `E(operators, operands)`: one `P`, then the binary-operator loop, then
  drain down to the sentinel. -/
  fE := fun st => do
    let st1 ← prev.fP st
    let st2 ← prev.fEloop st1
    let (o, v) ← Edrain (st2.ops.length + 1) st2.ops st2.vals
    pure { st2 with ops := o, vals := v }
  /- `while (binaryOperators[next]) { pushOperator(binary(next)); consume(); P; }` -/
  fEloop := fun st =>
    if (binaryOperators st.next).isSome then do
      let (o, v) ← pushOperator (binary st.next) st.ops st.vals
      let st1 ← consume { st with ops := o, vals := v }
      let st2 ← prev.fP st1
      prev.fEloop st2
    else
      pure st
  /- `P(operators, operands)` -/
  fP := fun st =>
    if isNumber st.next then
      consume { st with vals := Node.num st.next :: st.vals }
    else if st.next = "(" then do
      let st1 ← consume st
      let st2 ← prev.fE { st1 with ops := Node.sentinel :: st1.ops }
      let st3 ← expect ")" st2
      pure { st3 with ops := st3.ops.tail }
    else if (unaryOperators st.next).isSome then do
      let (o, v) ← pushOperator (unary st.next) st.ops st.vals
      let st1 ← consume { st with ops := o, vals := v }
      prev.fP st1
    else if isVariable st.next then do
      let name := st.next
      let st1 ← consume st
      if st1.next = "(" then do
        let (o, v) ← pushOperator (Node.func name 0 []) st1.ops st1.vals
        let st2 ← consume { st1 with ops := o, vals := v }
        let res ← prev.fF { st2 with ops := Node.sentinel :: st2.ops }
        let st4 ← expect ")" res.2
        pure { st4 with ops := setFuncLength res.1 st4.ops.tail }
      else
        pure { st1 with vals := Node.var name :: st1.vals }
    else
      throw (String.mk ("Invalid syntax at \"".data ++ st.next.data ++ "\"".data))
  /- `F(fn, operators, operands)`: parse one `E`, count it, then the comma
  loop; returns the final `fn.length`. -/
  fF := fun st => do
    let st1 ← prev.fE st
    prev.fFloop 1 st1
  /- `while (next === ',') { fn.length++; consume(); E; }` -/
  fFloop := fun n st =>
    if st.next = "," then do
      let st1 ← consume st
      let st2 ← prev.fE st1
      prev.fFloop (n + 1) st2
    else
      pure (n, st)

/-- The fuel-indexed tower of parser procedures. -/
def parserFns : Nat → ParserFns :=
  fun fuel => Nat.rec fuelZero (fun _ ih => fuelStep ih) fuel

def E (fuel : Nat) (st : PSt) : Except Err PSt := (parserFns fuel).fE st

def Eloop (fuel : Nat) (st : PSt) : Except Err PSt := (parserFns fuel).fEloop st

def P (fuel : Nat) (st : PSt) : Except Err PSt := (parserFns fuel).fP st

def F (fuel : Nat) (st : PSt) : Except Err (Nat × PSt) := (parserFns fuel).fF st

def Floop (fuel : Nat) (n : Nat) (st : PSt) : Except Err (Nat × PSt) :=
  (parserFns fuel).fFloop n st

theorem E_zero (st : PSt) : E 0 st = throw "out of fuel" := rfl

theorem E_succ (fuel : Nat) (st : PSt) :
    E (fuel + 1) st = (do
      let st1 ← P fuel st
      let st2 ← Eloop fuel st1
      let (o, v) ← Edrain (st2.ops.length + 1) st2.ops st2.vals
      pure { st2 with ops := o, vals := v }) := rfl

theorem Eloop_zero (st : PSt) : Eloop 0 st = throw "out of fuel" := rfl

theorem Eloop_succ (fuel : Nat) (st : PSt) :
    Eloop (fuel + 1) st =
      (if (binaryOperators st.next).isSome then do
        let (o, v) ← pushOperator (binary st.next) st.ops st.vals
        let st1 ← consume { st with ops := o, vals := v }
        let st2 ← P fuel st1
        Eloop fuel st2
      else
        pure st) := rfl

theorem P_zero (st : PSt) : P 0 st = throw "out of fuel" := rfl

theorem P_succ (fuel : Nat) (st : PSt) :
    P (fuel + 1) st =
      (if isNumber st.next then
        consume { st with vals := Node.num st.next :: st.vals }
      else if st.next = "(" then do
        let st1 ← consume st
        let st2 ← E fuel { st1 with ops := Node.sentinel :: st1.ops }
        let st3 ← expect ")" st2
        pure { st3 with ops := st3.ops.tail }
      else if (unaryOperators st.next).isSome then do
        let (o, v) ← pushOperator (unary st.next) st.ops st.vals
        let st1 ← consume { st with ops := o, vals := v }
        P fuel st1
      else if isVariable st.next then do
        let name := st.next
        let st1 ← consume st
        if st1.next = "(" then do
          let (o, v) ← pushOperator (Node.func name 0 []) st1.ops st1.vals
          let st2 ← consume { st1 with ops := o, vals := v }
          let res ← F fuel { st2 with ops := Node.sentinel :: st2.ops }
          let st4 ← expect ")" res.2
          pure { st4 with ops := setFuncLength res.1 st4.ops.tail }
        else
          pure { st1 with vals := Node.var name :: st1.vals }
      else
        throw (String.mk ("Invalid syntax at \"".data ++ st.next.data ++ "\"".data))) := rfl

theorem F_zero (st : PSt) : F 0 st = throw "out of fuel" := rfl

theorem F_succ (fuel : Nat) (st : PSt) :
    F (fuel + 1) st = (do
      let st1 ← E fuel st
      Floop fuel 1 st1) := rfl

theorem Floop_zero (n : Nat) (st : PSt) : Floop 0 n st = throw "out of fuel" := rfl

theorem Floop_succ (fuel : Nat) (n : Nat) (st : PSt) :
    Floop (fuel + 1) n st =
      (if st.next = "," then do
        let st1 ← consume st
        let st2 ← E fuel st1
        Floop fuel (n + 1) st2
      else
        pure (n, st)) := rfl

/-- `parse(inp)`: prime the token cursor, then `parseExpression`: fresh
stacks with one sentinel, one `E`, `expect('')`, pop the result.  The fuel
bounds the recursion depth of the mutually recursive procedures; the depth
is linear in the input length, so `4 * inp.length + 16` never runs out. -/
def parse (inp : String) : Except Err Node := do
  let (n, r) ← tokenize inp.data
  let st0 : PSt := ⟨n, r, [Node.sentinel], []⟩
  let st1 ← E (4 * inp.length + 16) st0
  let st2 ← expect "" st1
  pure (popVal st2.vals).1

/-! ## The evaluator -/

/-- A function-context entry `{ length :: number | null, fn :: Function }`;
`length = none` models JS `null` (variadic). -/
structure FuncDef where
  length : Option Nat
  fn : List ℚ → ℚ

/-- `Math.pow` restricted to the exact-rational model: for an integer
exponent the JS result is this exact power; for a fractional exponent the
JS result is a generally irrational real with no counterpart in `ℚ`, so
that branch carries a fixed placeholder (no property below depends on it,
and likewise `Math.pow(0, -1) = Infinity` is outside the model). -/
def ratPow (a b : ℚ) : ℚ :=
  if b.den = 1 then a ^ b.num else 0

/-- `Math.max(...args)`: the fold over all supplied arguments.  JS yields
`-Infinity` on an empty call, which is outside `ℚ`; the parser guarantees
at least one argument, so the `[]` branch carries a placeholder. -/
def jsMax : List ℚ → ℚ
  | [] => 0
  | v :: rest => rest.foldl max v

/-- `Math.min(...args)`; the `[]` placeholder is as in `jsMax`. -/
def jsMin : List ℚ → ℚ
  | [] => 0
  | v :: rest => rest.foldl min v

/-- The transcendental built-ins (`sin`, `cos`, ..., `log`, `exp`) have no
exact rational semantics; their values are a fixed placeholder.  Only their
names and declared arities matter to any property proved below. -/
def transcendental : List ℚ → ℚ := fun _ => 0

/-- `Math.floor`/`ceil`/`round` as unary callables.  A JS unary callable
applied to an empty argument list would see `undefined` and produce `NaN`
(outside the model); the arity check makes that branch unreachable. -/
def floorFn : List ℚ → ℚ
  | a :: _ => (⌊a⌋ : ℤ)
  | [] => 0

def ceilFn : List ℚ → ℚ
  | a :: _ => (⌈a⌉ : ℤ)
  | [] => 0

/-- `Math.round(a)` rounds half toward positive infinity: `⌊a + 1/2⌋`. -/
def roundFn : List ℚ → ℚ
  | a :: _ => (⌊a + 1/2⌋ : ℤ)
  | [] => 0

def powFn : List ℚ → ℚ
  | a :: b :: _ => ratPow a b
  | _ => 0

/-- `const functionList = { ... }`: the built-in function table. -/
def functionList (s : String) : Option FuncDef :=
  if s = "floor" then some ⟨some 1, floorFn⟩
  else if s = "ceil" then some ⟨some 1, ceilFn⟩
  else if s = "round" then some ⟨some 1, roundFn⟩
  else if s = "sin" then some ⟨some 1, transcendental⟩
  else if s = "cos" then some ⟨some 1, transcendental⟩
  else if s = "tan" then some ⟨some 1, transcendental⟩
  else if s = "asin" then some ⟨some 1, transcendental⟩
  else if s = "acos" then some ⟨some 1, transcendental⟩
  else if s = "atan" then some ⟨some 1, transcendental⟩
  else if s = "log" then some ⟨some 1, transcendental⟩
  else if s = "log10" then some ⟨some 1, transcendental⟩
  else if s = "exp" then some ⟨some 1, transcendental⟩
  else if s = "pow" then some ⟨some 2, powFn⟩
  else if s = "sinh" then some ⟨some 1, transcendental⟩
  else if s = "cosh" then some ⟨some 1, transcendental⟩
  else if s = "tanh" then some ⟨some 1, transcendental⟩
  else if s = "max" then some ⟨none, jsMax⟩
  else if s = "min" then some ⟨none, jsMin⟩
  else none

/-- `functionList[tree.value] || (fns ? fns[tree.value] : undefined)`:
the built-in table is consulted first; the caller context only if the
built-in lookup came back `undefined`.  An absent caller context is the
everywhere-`none` function. -/
def resolveFunc (name : String) (fns : String → Option FuncDef) : Option FuncDef :=
  match functionList name with
  | some fd => some fd
  | none => fns name

/-- `` `Function "${v}" expected ${n} arguments, but got ${k}` `` -/
def arityMsg (v : String) (n k : Nat) : Err :=
  String.mk ("Function \"".data ++ v.data ++ "\" expected ".data
    ++ (Nat.repr n).data ++ " arguments, but got ".data ++ (Nat.repr k).data)

/-- The value of a digit run, most significant first. -/
def digitsVal (cs : List Char) : Nat :=
  cs.foldl (fun a c => a * 10 + (c.toNat - 48)) 0

/-- JS `parseFloat`, modelled on the numeral alphabet this program feeds it
(runs of decimal digits and `'.'`, or a variable's numeric value already of
that shape): an integer part, optionally a `'.'` and a fractional part,
`NaN` (here `none`) when no digit was consumed before the run ends.
`parseFloat`'s sign/exponent/`Infinity` forms cannot occur in these
numerals. -/
def parseFloatQ (s : String) : Option ℚ :=
  let cs := s.data
  let intPart := cs.takeWhile Char.isDigit
  let rest := cs.drop intPart.length
  match rest with
  | '.' :: rest2 =>
    let fracPart := rest2.takeWhile Char.isDigit
    if intPart = [] ∧ fracPart = [] then none
    else some ((digitsVal intPart : ℚ)
      + (digitsVal fracPart : ℚ) / (10 : ℚ) ^ fracPart.length)
  | _ => if intPart = [] then none else some (digitsVal intPart)

mutual

/-- `evaluate(tree, vars, fns)`.  The JS `switch` on a `BinOp`'s operator
evaluates `left` before `right` in every case; the `Func` case resolves the
name, checks `func.length !== null && func.length !== tree.args.length`
before evaluating any argument, then maps `evaluate` over the arguments
left-to-right and applies the callable to all of them.  For a `Var`, JS
re-parses the bound value with `parseFloat`, the identity on the finite
numbers the model's context supplies.  A `Sentinel` (or `undefined`) tree
falls through every `instanceof` test and JS returns `undefined`; that has
no numeric counterpart, so the model signals it as an error (unreachable
for parser-produced trees). -/
def evaluate (tree : Node) (vars : String → Option ℚ)
    (fns : String → Option FuncDef) : Except Err ℚ :=
  match tree with
  | Node.binOp v left right =>
    if v = "^" then do
      let a ← evaluate left vars fns
      let b ← evaluate right vars fns
      pure (ratPow a b)
    else if v = "*" then do
      let a ← evaluate left vars fns
      let b ← evaluate right vars fns
      pure (a * b)
    else if v = "+" then do
      let a ← evaluate left vars fns
      let b ← evaluate right vars fns
      pure (a + b)
    else if v = "-" then do
      let a ← evaluate left vars fns
      let b ← evaluate right vars fns
      pure (a - b)
    else if v = "/" then do
      let l ← evaluate left vars fns
      let r ← evaluate right vars fns
      if r = 0 then throw "Division by zero"
      else pure (l / r)
    else throw (String.mk ("Unknown operator: ".data ++ v.data))
  | Node.func v _ args =>
    match resolveFunc v fns with
    | none => throw (String.mk ("Unknown function: \"".data ++ v.data ++ "\"".data))
    | some fd =>
      match fd.length with
      | some n =>
        if n = args.length then do
          let vs ← evalList args vars fns
          pure (fd.fn vs)
        else throw (arityMsg v n args.length)
      | none => do
        let vs ← evalList args vars fns
        pure (fd.fn vs)
  | Node.unOp v left =>
    if v = "-" then do
      let a ← evaluate left vars fns
      pure (-a)
    else throw (String.mk ("Unknown function: ".data ++ v.data))
  | Node.num v =>
    match parseFloatQ v with
    | some q => pure q
    | none => throw (String.mk ("Invalid Number: ".data ++ v.data))
  | Node.var v =>
    match vars v with
    | none => throw (String.mk ("Unknown variable: \"".data ++ v.data ++ "\"".data))
    | some q => pure q
  | Node.sentinel => throw "evaluate: undefined result"
  | Node.undef => throw "evaluate: undefined result"

/-- `tree.args.map(a => evaluate(a, vars, fns))`, left to right; the first
failing argument aborts the whole call, as a thrown JS exception does. -/
def evalList (args : List Node) (vars : String → Option ℚ)
    (fns : String → Option FuncDef) : Except Err (List ℚ) :=
  match args with
  | [] => pure []
  | a :: rest => do
    let x ← evaluate a vars fns
    let xs ← evalList rest vars fns
    pure (x :: xs)

end

instance {ε α : Type} [DecidableEq ε] [DecidableEq α] : DecidableEq (Except ε α) :=
  fun a b =>
    match a, b with
    | .ok x, .ok y =>
      if h : x = y then .isTrue (by rw [h])
      else .isFalse (fun e => by injection e with e1; exact absurd e1 h)
    | .error x, .error y =>
      if h : x = y then .isTrue (by rw [h])
      else .isFalse (fun e => by injection e with e1; exact absurd e1 h)
    | .ok _, .error _ => .isFalse (fun h => Except.noConfusion h)
    | .error _, .ok _ => .isFalse (fun h => Except.noConfusion h)

/-- An absent (`undefined`/`null`) variable context. -/
def noVars : String → Option ℚ := fun _ => none

/-- An absent (`undefined`/`null`) function context. -/
def noFns : String → Option FuncDef := fun _ => none

/-- `evaluate(parse(s))` with optional contexts. -/
def parseEval (s : String) (vars : String → Option ℚ)
    (fns : String → Option FuncDef) : Except Err ℚ := do
  let t ← parse s
  evaluate t vars fns

/-! ## Helper lemmas -/

theorem exPure {α : Type} (a : α) : (pure a : Except Err α) = Except.ok a := rfl

theorem exBindOk {α β : Type} (a : α) (f : α → Except Err β) :
    (Except.ok a >>= f) = f a := rfl

theorem exBindErr {α β : Type} (e : Err) (f : α → Except Err β) :
    ((Except.error e : Except Err α) >>= f) = Except.error e := rfl

theorem exBind_eq_ok {α β : Type} {x : Except Err α} {f : α → Except Err β} {b : β} :
    (x >>= f) = Except.ok b ↔ ∃ a, x = Except.ok a ∧ f a = Except.ok b := by
  cases x with
  | ok a => simp [exBindOk]
  | error e => simp [exBindErr]

/-- The arity-check-and-apply tail of the `Func` branch of `evaluate`,
once the name has resolved to `fd`. -/
def evalCall (fd : FuncDef) (v : String) (args : List Node)
    (vars : String → Option ℚ) (fns : String → Option FuncDef) : Except Err ℚ :=
  match fd.length with
  | some n =>
    if n = args.length then do
      let vs ← evalList args vars fns
      pure (fd.fn vs)
    else throw (arityMsg v n args.length)
  | none => do
    let vs ← evalList args vars fns
    pure (fd.fn vs)

theorem evaluate_func (v : String) (k : Nat) (args : List Node)
    (vars : String → Option ℚ) (fns : String → Option FuncDef) :
    evaluate (Node.func v k args) vars fns =
      match resolveFunc v fns with
      | none => throw (String.mk ("Unknown function: \"".data ++ v.data ++ "\"".data))
      | some fd => evalCall fd v args vars fns := by
  cases h : resolveFunc v fns <;> simp [evaluate, evalCall, h]

/-! ## Structural invariants of parser output

`treeOk` holds of a tree that contains no `Sentinel` and in which every
`Call` node's argument list has exactly the declared number of arguments.
`opEntryOk` is the companion invariant of operator-stack entries: a `Func`
entry still on the operator stack has an empty argument list. -/

def opEntryOk : Node → Bool
  | Node.func _ _ args => args.isEmpty
  | _ => true

mutual

def treeOk : Node → Bool
  | Node.num _ => true
  | Node.var _ => true
  | Node.unOp _ l => treeOk l
  | Node.binOp _ l r => treeOk l && treeOk r
  | Node.func _ len args => (args.length == len) && treeOkList args
  | Node.sentinel => false
  | Node.undef => true

def treeOkList : List Node → Bool
  | [] => true
  | a :: as => treeOk a && treeOkList as

end

def valsOk (vals : List Node) : Prop := ∀ x ∈ vals, treeOk x = true

def opsOk (ops : List Node) : Prop := ∀ x ∈ ops, opEntryOk x = true

def StOk (st : PSt) : Prop := valsOk st.vals ∧ opsOk st.ops

theorem treeOkList_iff (l : List Node) :
    treeOkList l = true ↔ ∀ x ∈ l, treeOk x = true := by
  induction l with
  | nil => simp [treeOkList]
  | cons a as ih => simp [treeOkList, Bool.and_eq_true, ih]

theorem popVal_fst_ok {vals : List Node} (h : valsOk vals) :
    treeOk (popVal vals).1 = true := by
  cases vals with
  | nil => simp [popVal, treeOk]
  | cons v r => exact h v (by simp [popVal])

theorem popVal_snd_ok {vals : List Node} (h : valsOk vals) :
    valsOk (popVal vals).2 := by
  cases vals with
  | nil => intro x hx; simp [popVal] at hx
  | cons v r => intro x hx; exact h x (by simp [popVal] at hx ⊢; exact Or.inr hx)

theorem valsOk_tail {vals : List Node} (h : valsOk vals) : valsOk vals.tail := by
  cases vals with
  | nil => intro x hx; simp at hx
  | cons v r => intro x hx; exact h x (by simp at hx ⊢; exact Or.inr hx)

theorem opsOk_tail {ops : List Node} (h : opsOk ops) : opsOk ops.tail := by
  cases ops with
  | nil => intro x hx; simp at hx
  | cons v r => intro x hx; exact h x (by simp at hx ⊢; exact Or.inr hx)

theorem popOperator_ok {ops vals : List Node} (ho : opsOk ops) (hv : valsOk vals) :
    opsOk (popOperator ops vals).1 ∧ valsOk (popOperator ops vals).2 := by
  match ops with
  | [] => exact ⟨ho, hv⟩
  | Node.num _ :: _ => exact ⟨ho, hv⟩
  | Node.var _ :: _ => exact ⟨ho, hv⟩
  | Node.sentinel :: _ => exact ⟨ho, hv⟩
  | Node.undef :: _ => exact ⟨ho, hv⟩
  | Node.binOp v l r :: ops1 =>
    refine ⟨fun x hx => ho x (List.mem_cons_of_mem _ hx), fun x hx => ?_⟩
    simp only [popOperator] at hx
    rcases List.mem_cons.mp hx with h1 | h1
    · subst h1
      have e1 := popVal_fst_ok hv
      have e2 := popVal_fst_ok (popVal_snd_ok hv)
      simp [treeOk, e1, e2]
    · exact popVal_snd_ok (popVal_snd_ok hv) x h1
  | Node.unOp v l :: ops1 =>
    refine ⟨fun x hx => ho x (List.mem_cons_of_mem _ hx), fun x hx => ?_⟩
    simp only [popOperator] at hx
    rcases List.mem_cons.mp hx with h1 | h1
    · subst h1
      have e1 := popVal_fst_ok hv
      simp [treeOk, e1]
    · exact popVal_snd_ok hv x h1
  | Node.func v len args :: ops1 =>
    have hargs : args = [] := by
      have := ho (Node.func v len args) (List.mem_cons_self _ _)
      simpa [opEntryOk, List.isEmpty_iff] using this
    subst hargs
    refine ⟨fun x hx => ho x (List.mem_cons_of_mem _ hx), fun x hx => ?_⟩
    simp only [popOperator, List.length_nil, Nat.sub_zero, List.append_nil] at hx
    rcases List.mem_cons.mp hx with h1 | h1
    · subst h1
      simp only [treeOk, Bool.and_eq_true, beq_iff_eq]
      constructor
      · simp only [List.length_reverse, List.length_append, List.length_take,
          List.length_replicate]
        omega
      · rw [treeOkList_iff]
        intro x hx2
        simp only [List.mem_reverse, List.mem_append] at hx2
        rcases hx2 with h2 | h2
        · exact hv x (List.mem_of_mem_take h2)
        · rw [List.eq_of_mem_replicate h2]; rfl
    · exact hv x (List.mem_of_mem_drop h1)

theorem pushOpGo_ok : ∀ (fuel : Nat) (op : Node) (ops vals o v : List Node),
    pushOpGo fuel op ops vals = Except.ok (o, v) →
    opEntryOk op = true → opsOk ops → valsOk vals → opsOk o ∧ valsOk v := by
  intro fuel
  induction fuel with
  | zero =>
    intro op ops vals o v h
    rw [pushOpGo_zero] at h
    exact absurd h (by simp [throw, throwThe, MonadExceptOf.throw])
  | succ fuel ih =>
    intro op ops vals o v h hop ho hv
    rw [pushOpGo_succ] at h
    match ops, ho with
    | [], ho =>
      simp only [pure, ExceptT.pure, Except.pure, Except.ok.injEq, Prod.mk.injEq] at h
      obtain ⟨h1, h2⟩ := h
      subst h1; subst h2
      exact ⟨fun x hx => by
        rcases List.mem_singleton.mp hx with rfl
        exact hop, hv⟩
    | topNode :: rest, ho =>
      obtain ⟨p1, hp1, h⟩ := exBind_eq_ok.mp h
      obtain ⟨p2, hp2, h⟩ := exBind_eq_ok.mp h
      by_cases hlt : ltJS p1 p2 = true
      · rw [if_pos hlt] at h
        rcases hpo : popOperator (topNode :: rest) vals with ⟨o1, v1⟩
        rw [hpo] at h
        have hok := @popOperator_ok (topNode :: rest) vals ho hv
        rw [hpo] at hok
        exact ih op o1 v1 o v h hop hok.1 hok.2
      · rw [if_neg hlt] at h
        simp only [pure, Except.pure, Except.ok.injEq, Prod.mk.injEq] at h
        obtain ⟨h1, h2⟩ := h
        subst h1; subst h2
        refine ⟨fun x hx => ?_, hv⟩
        rcases List.mem_cons.mp hx with rfl | hx2
        · exact hop
        · exact ho x hx2

theorem pushOperator_ok {op : Node} {ops vals o v : List Node}
    (h : pushOperator op ops vals = Except.ok (o, v))
    (hop : opEntryOk op = true) (ho : opsOk ops) (hv : valsOk vals) :
    opsOk o ∧ valsOk v :=
  pushOpGo_ok (ops.length + 1) op ops vals o v h hop ho hv

theorem Edrain_ok : ∀ (fuel : Nat) (ops vals o v : List Node),
    Edrain fuel ops vals = Except.ok (o, v) →
    opsOk ops → valsOk vals → opsOk o ∧ valsOk v := by
  intro fuel
  induction fuel with
  | zero =>
    intro ops vals o v h
    rw [Edrain_zero] at h
    exact absurd h (by simp [throw, throwThe, MonadExceptOf.throw])
  | succ fuel ih =>
    intro ops vals o v h ho hv
    rw [Edrain_succ] at h
    match ops, ho, h with
    | Node.sentinel :: rest, ho, h =>
      simp only [pure, Except.pure, Except.ok.injEq, Prod.mk.injEq] at h
      obtain ⟨h1, h2⟩ := h
      subst h1; subst h2
      exact ⟨ho, hv⟩
    | [], ho, h => exact ih _ _ o v h ho hv
    | Node.num _ :: rest, ho, h =>
      exact ih _ _ o v h (by exact (popOperator_ok ho hv).1) (popOperator_ok ho hv).2
    | Node.var _ :: rest, ho, h =>
      exact ih _ _ o v h (popOperator_ok ho hv).1 (popOperator_ok ho hv).2
    | Node.unOp _ _ :: rest, ho, h =>
      exact ih _ _ o v h (popOperator_ok ho hv).1 (popOperator_ok ho hv).2
    | Node.binOp _ _ _ :: rest, ho, h =>
      exact ih _ _ o v h (popOperator_ok ho hv).1 (popOperator_ok ho hv).2
    | Node.func _ _ _ :: rest, ho, h =>
      exact ih _ _ o v h (popOperator_ok ho hv).1 (popOperator_ok ho hv).2
    | Node.undef :: rest, ho, h =>
      exact ih _ _ o v h (popOperator_ok ho hv).1 (popOperator_ok ho hv).2

theorem consume_stacks {st st' : PSt} (h : consume st = Except.ok st') :
    st'.ops = st.ops ∧ st'.vals = st.vals := by
  unfold consume at h
  obtain ⟨⟨n, r⟩, ht, h⟩ := exBind_eq_ok.mp h
  simp only [pure, Except.pure, Except.ok.injEq] at h
  subst h
  exact ⟨rfl, rfl⟩

theorem expect_stacks {tok : String} {st st' : PSt}
    (h : expect tok st = Except.ok st') :
    st'.ops = st.ops ∧ st'.vals = st.vals := by
  unfold expect at h
  by_cases h1 : st.next = tok
  · rw [if_pos h1] at h
    exact consume_stacks h
  · rw [if_neg h1] at h
    by_cases h2 : st.next = ""
    · rw [if_pos h2] at h
      exact absurd h (by simp [throw, throwThe, MonadExceptOf.throw])
    · rw [if_neg h2] at h
      exact absurd h (by simp [throw, throwThe, MonadExceptOf.throw])

theorem setFuncLength_ok {n : Nat} {ops : List Node} (ho : opsOk ops) :
    opsOk (setFuncLength n ops) := by
  match ops, ho with
  | [], ho => exact ho
  | Node.num _ :: rest, ho => exact ho
  | Node.var _ :: rest, ho => exact ho
  | Node.sentinel :: rest, ho => exact ho
  | Node.undef :: rest, ho => exact ho
  | Node.unOp _ _ :: rest, ho => exact ho
  | Node.binOp _ _ _ :: rest, ho => exact ho
  | Node.func v len args :: rest, ho =>
    intro x hx
    simp only [setFuncLength] at hx
    rcases List.mem_cons.mp hx with rfl | hx2
    · have := ho (Node.func v len args) (List.mem_cons_self _ _)
      simpa [opEntryOk] using this
    · exact ho x (List.mem_cons_of_mem _ hx2)

/-- Every parsing procedure preserves the stack invariants: all finished
operand-stack trees are `treeOk` and all operator-stack `Func` entries have
empty argument lists. -/
theorem parserFns_ok : ∀ fuel : Nat,
    (∀ st st', E fuel st = Except.ok st' → StOk st → StOk st') ∧
    (∀ st st', Eloop fuel st = Except.ok st' → StOk st → StOk st') ∧
    (∀ st st', P fuel st = Except.ok st' → StOk st → StOk st') ∧
    (∀ st r, F fuel st = Except.ok r → StOk st → StOk r.2) ∧
    (∀ n st r, Floop fuel n st = Except.ok r → StOk st → StOk r.2) := by
  intro fuel
  induction fuel with
  | zero =>
    refine ⟨?_, ?_, ?_, ?_, ?_⟩
    · intro st st' h
      rw [E_zero] at h
      exact absurd h (by simp [throw, throwThe, MonadExceptOf.throw])
    · intro st st' h
      rw [Eloop_zero] at h
      exact absurd h (by simp [throw, throwThe, MonadExceptOf.throw])
    · intro st st' h
      rw [P_zero] at h
      exact absurd h (by simp [throw, throwThe, MonadExceptOf.throw])
    · intro st r h
      rw [F_zero] at h
      exact absurd h (by simp [throw, throwThe, MonadExceptOf.throw])
    · intro n st r h
      rw [Floop_zero] at h
      exact absurd h (by simp [throw, throwThe, MonadExceptOf.throw])
  | succ fuel ih =>
    obtain ⟨ihE, ihEloop, ihP, ihF, ihFloop⟩ := ih
    refine ⟨?_, ?_, ?_, ?_, ?_⟩
    · -- E
      intro st st' h hst
      rw [E_succ] at h
      obtain ⟨st1, h1, h⟩ := exBind_eq_ok.mp h
      obtain ⟨st2, h2, h⟩ := exBind_eq_ok.mp h
      obtain ⟨⟨o, v⟩, h3, h⟩ := exBind_eq_ok.mp h
      simp only [pure, Except.pure, Except.ok.injEq] at h
      subst h
      have hst1 := ihP st st1 h1 hst
      have hst2 := ihEloop st1 st2 h2 hst1
      have hd := Edrain_ok _ _ _ _ _ h3 hst2.2 hst2.1
      exact ⟨hd.2, hd.1⟩
    · -- Eloop
      intro st st' h hst
      rw [Eloop_succ] at h
      by_cases hb : (binaryOperators st.next).isSome = true
      · rw [if_pos hb] at h
        obtain ⟨⟨o, v⟩, h1, h⟩ := exBind_eq_ok.mp h
        obtain ⟨st1, h2, h⟩ := exBind_eq_ok.mp h
        obtain ⟨st2, h3, h⟩ := exBind_eq_ok.mp h
        have hov := pushOperator_ok h1 rfl hst.2 hst.1
        have hcs := consume_stacks h2
        have hst1 : StOk st1 :=
          ⟨by rw [hcs.2]; exact hov.2, by rw [hcs.1]; exact hov.1⟩
        exact ihEloop st2 st' h (ihP st1 st2 h3 hst1)
      · rw [if_neg hb] at h
        simp only [pure, Except.pure, Except.ok.injEq] at h
        subst h
        exact hst
    · -- P
      intro st st' h hst
      rw [P_succ] at h
      by_cases h1 : isNumber st.next = true
      · rw [if_pos h1] at h
        have hcs := consume_stacks h
        refine ⟨?_, ?_⟩
        · rw [hcs.2]
          intro x hx
          rcases List.mem_cons.mp hx with rfl | hx2
          · rfl
          · exact hst.1 x hx2
        · rw [hcs.1]; exact hst.2
      · rw [if_neg h1] at h
        by_cases h2 : st.next = "("
        · rw [if_pos h2] at h
          obtain ⟨st1, hc1, h⟩ := exBind_eq_ok.mp h
          obtain ⟨st2, hE, h⟩ := exBind_eq_ok.mp h
          obtain ⟨st3, hex, h⟩ := exBind_eq_ok.mp h
          simp only [pure, Except.pure, Except.ok.injEq] at h
          subst h
          have hcs := consume_stacks hc1
          have hst1 : StOk st1 :=
            ⟨by rw [hcs.2]; exact hst.1, by rw [hcs.1]; exact hst.2⟩
          have hstX : StOk { st1 with ops := Node.sentinel :: st1.ops } := by
            refine ⟨hst1.1, fun x hx => ?_⟩
            rcases List.mem_cons.mp hx with rfl | hx2
            · rfl
            · exact hst1.2 x hx2
          have hst2 := ihE _ st2 hE hstX
          have hexs := expect_stacks hex
          have hst3 : StOk st3 :=
            ⟨by rw [hexs.2]; exact hst2.1, by rw [hexs.1]; exact hst2.2⟩
          exact ⟨hst3.1, opsOk_tail hst3.2⟩
        · rw [if_neg h2] at h
          by_cases h3 : (unaryOperators st.next).isSome = true
          · rw [if_pos h3] at h
            obtain ⟨⟨o, v⟩, hpu, h⟩ := exBind_eq_ok.mp h
            obtain ⟨st1, hc, h⟩ := exBind_eq_ok.mp h
            have hov := pushOperator_ok hpu rfl hst.2 hst.1
            have hcs := consume_stacks hc
            have hst1 : StOk st1 :=
              ⟨by rw [hcs.2]; exact hov.2, by rw [hcs.1]; exact hov.1⟩
            exact ihP st1 st' h hst1
          · rw [if_neg h3] at h
            by_cases h4 : isVariable st.next = true
            · rw [if_pos h4] at h
              obtain ⟨st1, hc, h⟩ := exBind_eq_ok.mp h
              have hcs := consume_stacks hc
              have hst1 : StOk st1 :=
                ⟨by rw [hcs.2]; exact hst.1, by rw [hcs.1]; exact hst.2⟩
              by_cases h5 : st1.next = "("
              · rw [if_pos h5] at h
                obtain ⟨⟨o, v⟩, hpu, h⟩ := exBind_eq_ok.mp h
                obtain ⟨st2, hc2, h⟩ := exBind_eq_ok.mp h
                obtain ⟨res, hF, h⟩ := exBind_eq_ok.mp h
                obtain ⟨st4, hex, h⟩ := exBind_eq_ok.mp h
                simp only [pure, Except.pure, Except.ok.injEq] at h
                subst h
                have hov := pushOperator_ok hpu rfl hst1.2 hst1.1
                have hcs2 := consume_stacks hc2
                have hst2 : StOk st2 :=
                  ⟨by rw [hcs2.2]; exact hov.2, by rw [hcs2.1]; exact hov.1⟩
                have hstX : StOk { st2 with ops := Node.sentinel :: st2.ops } := by
                  refine ⟨hst2.1, fun x hx => ?_⟩
                  rcases List.mem_cons.mp hx with rfl | hx2
                  · rfl
                  · exact hst2.2 x hx2
                have hres := ihF _ res hF hstX
                have hexs := expect_stacks hex
                have hst4 : StOk st4 :=
                  ⟨by rw [hexs.2]; exact hres.1, by rw [hexs.1]; exact hres.2⟩
                exact ⟨hst4.1, setFuncLength_ok (opsOk_tail hst4.2)⟩
              · rw [if_neg h5] at h
                simp only [pure, Except.pure, Except.ok.injEq] at h
                subst h
                refine ⟨?_, hst1.2⟩
                intro x hx
                rcases List.mem_cons.mp hx with rfl | hx2
                · rfl
                · exact hst1.1 x hx2
            · rw [if_neg h4] at h
              exact absurd h (by simp [throw, throwThe, MonadExceptOf.throw])
    · -- F
      intro st r h hst
      rw [F_succ] at h
      obtain ⟨st1, hE, h⟩ := exBind_eq_ok.mp h
      exact ihFloop 1 st1 r h (ihE st st1 hE hst)
    · -- Floop
      intro n st r h hst
      rw [Floop_succ] at h
      by_cases hb : st.next = ","
      · rw [if_pos hb] at h
        obtain ⟨st1, hc, h⟩ := exBind_eq_ok.mp h
        obtain ⟨st2, hE, h⟩ := exBind_eq_ok.mp h
        have hcs := consume_stacks hc
        have hst1 : StOk st1 :=
          ⟨by rw [hcs.2]; exact hst.1, by rw [hcs.1]; exact hst.2⟩
        exact ihFloop (n + 1) st2 r h (ihE st1 st2 hE hst1)
      · rw [if_neg hb] at h
        simp only [pure, Except.pure, Except.ok.injEq] at h
        subst h
        exact hst

/-- A successfully parsed tree satisfies the structural invariant. -/
theorem parse_treeOk {inp : String} {t : Node}
    (h : parse inp = Except.ok t) : treeOk t = true := by
  unfold parse at h
  obtain ⟨⟨n, r⟩, htok, h⟩ := exBind_eq_ok.mp h
  obtain ⟨st1, hE, h⟩ := exBind_eq_ok.mp h
  obtain ⟨st2, hex, h⟩ := exBind_eq_ok.mp h
  simp only [pure, Except.pure, Except.ok.injEq] at h
  subst h
  have h0 : StOk ⟨n, r, [Node.sentinel], []⟩ := by
    refine ⟨fun x hx => ?_, fun x hx => ?_⟩
    · simp at hx
    · rcases List.mem_singleton.mp hx with rfl
      rfl
  have hst1 := (parserFns_ok _).1 _ _ hE h0
  have hexs := expect_stacks hex
  have hst2 : StOk st2 :=
    ⟨by rw [hexs.2]; exact hst1.1, by rw [hexs.1]; exact hst1.2⟩
  exact popVal_fst_ok hst2.1

/-! ## The claims -/

section Claims

attribute [local semireducible] Rat.add Rat.mul Rat.inv Rat.sub Rat.ofScientific

/-- C1, counterexample: `parse("1-2-3")` is the right-nested tree
`1 - (2 - 3)`, not the left-nested tree the claim asserts, and it
evaluates to `2`, not `-4`. -/
theorem c1_counterexample :
    parse "1-2-3" = Except.ok (Node.binOp "-" (Node.num "1")
      (Node.binOp "-" (Node.num "2") (Node.num "3")))
    ∧ Node.binOp "-" (Node.num "1") (Node.binOp "-" (Node.num "2") (Node.num "3"))
      ≠ Node.binOp "-" (Node.binOp "-" (Node.num "1") (Node.num "2")) (Node.num "3")
    ∧ parseEval "1-2-3" noVars noFns = Except.ok 2
    ∧ (2 : ℚ) ≠ -4 := by
  refine ⟨by decide, by decide, by decide, by decide⟩

/-- C1, amended: when a new binary operator is pushed, an already-stacked
operator is drained only while its precedence is strictly greater than the
new operator's (`op.prec < top.prec`); equal precedence does not drain, so
repeated applications of the same binary operator nest right:
`a op (b op c)`.  In particular `evaluate(parse("1-2-3"))` is `2` and
`evaluate(parse("8/4/2"))` is `4`. -/
theorem c1_amended_right_assoc :
    (∀ (op topNode : Node) (ops vals : List Node) (p1 p2 : Option Int),
      getPrecedence op = Except.ok p1 →
      getPrecedence topNode = Except.ok p2 →
      ltJS p1 p2 = false →
      pushOperator op (topNode :: ops) vals = Except.ok (op :: topNode :: ops, vals))
    ∧ parse "1-2-3" = Except.ok (Node.binOp "-" (Node.num "1")
        (Node.binOp "-" (Node.num "2") (Node.num "3")))
    ∧ parseEval "1-2-3" noVars noFns = Except.ok 2
    ∧ parse "8/4/2" = Except.ok (Node.binOp "/" (Node.num "8")
        (Node.binOp "/" (Node.num "4") (Node.num "2")))
    ∧ parseEval "8/4/2" noVars noFns = Except.ok 4
    ∧ parse "1+2+3" = Except.ok (Node.binOp "+" (Node.num "1")
        (Node.binOp "+" (Node.num "2") (Node.num "3")))
    ∧ parse "2*3*4" = Except.ok (Node.binOp "*" (Node.num "2")
        (Node.binOp "*" (Node.num "3") (Node.num "4")))
    ∧ parse "2^3^2" = Except.ok (Node.binOp "^" (Node.num "2")
        (Node.binOp "^" (Node.num "3") (Node.num "2")))
    ∧ parseEval "2^3^2" noVars noFns = Except.ok 512 := by
  refine ⟨?_, by decide, by decide, by decide, by decide, by decide, by decide,
    by decide, by decide⟩
  intro op topNode ops vals p1 p2 hp1 hp2 hlt
  have hlen : pushOperator op (topNode :: ops) vals
      = pushOpGo (ops.length + 1 + 1) op (topNode :: ops) vals := by
    simp [pushOperator]
  rw [hlen, pushOpGo_succ]
  simp only [hp1, hp2, exBindOk, hlt, Bool.false_eq_true, if_false]
  rfl

/-- C1, witness for the amended drain condition: pushing `-` onto a stack
whose top is `-` (equal precedence 2) drains nothing. -/
theorem c1_witness :
    pushOperator (binary "-") [binary "-", Node.sentinel] [Node.num "1", Node.num "2"]
      = Except.ok ([binary "-", binary "-", Node.sentinel],
        [Node.num "1", Node.num "2"]) :=
  c1_amended_right_assoc.1 (binary "-") (binary "-") [Node.sentinel]
    [Node.num "1", Node.num "2"] (some 2) (some 2) rfl rfl rfl

/-- C2: a resolved function entry with `length` null (declared arity
"any") passes no arity check and is applied to all evaluated arguments,
whatever their number; the built-ins `max` and `min` (declared variadic)
likewise accept every argument count of at least one. -/
theorem c2_variadic_any :
    (∀ (name : String) (k : Nat) (args : List Node) (vars : String → Option ℚ)
        (fns : String → Option FuncDef) (f : List ℚ → ℚ) (vs : List ℚ),
      functionList name = none →
      fns name = some ⟨none, f⟩ →
      evalList args vars fns = Except.ok vs →
      evaluate (Node.func name k args) vars fns = Except.ok (f vs))
    ∧ (∀ (k : Nat) (args : List Node) (vars : String → Option ℚ)
        (fns : String → Option FuncDef) (vs : List ℚ),
      args ≠ [] →
      evalList args vars fns = Except.ok vs →
      evaluate (Node.func "max" k args) vars fns = Except.ok (jsMax vs)
      ∧ evaluate (Node.func "min" k args) vars fns = Except.ok (jsMin vs)) := by
  constructor
  · intro name k args vars fns f vs hb hf he
    rw [evaluate_func]
    have hr : resolveFunc name fns = some ⟨none, f⟩ := by
      simp [resolveFunc, hb, hf]
    rw [hr]
    simp only [evalCall, he, exBindOk]
    rfl
  · intro k args vars fns vs _ he
    constructor
    · rw [evaluate_func]
      have hr : resolveFunc "max" fns = some ⟨none, jsMax⟩ := rfl
      rw [hr]
      simp only [evalCall, he, exBindOk]
      rfl
    · rw [evaluate_func]
      have hr : resolveFunc "min" fns = some ⟨none, jsMin⟩ := rfl
      rw [hr]
      simp only [evalCall, he, exBindOk]
      rfl

/-- A caller-supplied variadic function for the C2 witness. -/
def sumFn : List ℚ → ℚ := fun vs => vs.foldl (fun a b => a + b) 0

/-- A caller function context binding `plus` variadically. -/
def sumFns : String → Option FuncDef :=
  fun s => if s = "plus" then some ⟨none, sumFn⟩ else none

/-- C2, witness: the variadic caller function `plus` and the built-in
`max` both accept argument lists of length 2 and 3. -/
theorem c2_witness :
    evaluate (Node.func "plus" 2 [Node.num "1", Node.num "2"]) noVars sumFns
      = Except.ok (sumFn [1, 2])
    ∧ evaluate (Node.func "max" 3 [Node.num "1", Node.num "5", Node.num "2"])
        noVars noFns = Except.ok (jsMax [1, 5, 2]) :=
  ⟨c2_variadic_any.1 "plus" 2 [Node.num "1", Node.num "2"] noVars sumFns sumFn
      [1, 2] rfl rfl (by decide),
    (c2_variadic_any.2 3 [Node.num "1", Node.num "5", Node.num "2"] noVars noFns
      [1, 5, 2] (by decide) (by decide)).1⟩

/-- C3, counterexample: input exhausted at a primary position, such as
`"1+"`, fails with `Invalid syntax at ""`, not with the claimed
"unexpected end of input". -/
theorem c3_counterexample :
    parse "1+" = Except.error "Invalid syntax at \"\""
    ∧ ("Invalid syntax at \"\"" : Err) ≠ "Unexpected end of input" := by
  exact ⟨by decide, by decide⟩

/-- C3, amended: when input is exhausted where `expect` awaits a token
(e.g. the `)` of `"((1+2)"`), parse fails with "Unexpected end of input";
when a token other than `End` remains after the expression is reduced,
parse fails with `Unexpected "tok"` (e.g. `"(1+2))"`); but input exhausted
at a primary position (e.g. `"1+"`) fails with `Invalid syntax at ""`. -/
theorem c3_amended_errors :
    (∀ (tok : String) (st : PSt), st.next ≠ tok → st.next = "" →
      expect tok st = Except.error "Unexpected end of input")
    ∧ (∀ (tok : String) (st : PSt), st.next ≠ tok → st.next ≠ "" →
      expect tok st = Except.error
        (String.mk ("Unexpected \"".data ++ st.next.data ++ "\"".data)))
    ∧ parse "((1+2)" = Except.error "Unexpected end of input"
    ∧ parse "(1+2))" = Except.error "Unexpected \")\""
    ∧ parse "1+" = Except.error "Invalid syntax at \"\"" := by
  refine ⟨?_, ?_, by decide, by decide, by decide⟩
  · intro tok st h1 h2
    rw [h2] at h1
    simp [expect, h2, h1, throw, throwThe, MonadExceptOf.throw]
  · intro tok st h1 h2
    simp [expect, h1, h2, throw, throwThe, MonadExceptOf.throw]

/-- C3, witness: `expect ")"` on exhausted input reports
"Unexpected end of input", and on a leftover token echoes it. -/
theorem c3_witness :
    expect ")" ⟨"", [], [], []⟩ = Except.error "Unexpected end of input"
    ∧ expect "" ⟨")", [], [], []⟩ = Except.error
        (String.mk ("Unexpected \"".data ++ ")".data ++ "\"".data)) :=
  ⟨c3_amended_errors.1 ")" ⟨"", [], [], []⟩ (by decide) rfl,
    c3_amended_errors.2.1 "" ⟨")", [], [], []⟩ (by decide) (by decide)⟩

/-- C4: name resolution for a `Call` consults the built-in table first and
the caller context only when the built-in lookup fails, so a built-in name
shadows any caller-supplied function of the same name; in particular
`evaluate(parse("max(1,2)"), null, {max: f})` uses the built-in `max` and
returns `2` for every caller entry `f`. -/
theorem c4_builtin_shadows :
    (∀ (name : String) (fns : String → Option FuncDef) (fd : FuncDef),
      functionList name = some fd → resolveFunc name fns = some fd)
    ∧ (∀ (name : String) (fns : String → Option FuncDef),
      functionList name = none → resolveFunc name fns = fns name)
    ∧ (∀ (name : String) (k : Nat) (args : List Node) (vars : String → Option ℚ)
        (fns : String → Option FuncDef) (fd : FuncDef),
      functionList name = some fd →
      evaluate (Node.func name k args) vars fns = evalCall fd name args vars fns)
    ∧ (∀ f : FuncDef,
      parseEval "max(1,2)" noVars (fun n => if n = "max" then some f else none)
        = Except.ok 2) := by
  refine ⟨?_, ?_, ?_, ?_⟩
  · intro name fns fd h
    simp [resolveFunc, h]
  · intro name fns h
    simp [resolveFunc, h]
  · intro name k args vars fns fd h
    rw [evaluate_func]
    have hr : resolveFunc name fns = some fd := by simp [resolveFunc, h]
    rw [hr]
  · intro f
    have hp : parse "max(1,2)" =
        Except.ok (Node.func "max" 2 [Node.num "1", Node.num "2"]) := by decide
    simp only [parseEval, hp, exBindOk]
    rw [evaluate_func]
    have hr : resolveFunc "max" (fun n => if n = "max" then some f else none)
        = some ⟨none, jsMax⟩ := rfl
    rw [hr]
    simp only [evalCall]
    have h1 : parseFloatQ "1" = some 1 := by decide
    have h2 : parseFloatQ "2" = some 2 := by decide
    have he : evalList [Node.num "1", Node.num "2"] noVars
        (fun n => if n = "max" then some f else none) = Except.ok [1, 2] := by
      simp [evalList, evaluate, h1, h2, exPure, exBindOk]
    rw [he, exBindOk]
    have : jsMax [1, 2] = 2 := by decide
    simp [this, exPure]

/-- C4, witness: a caller context binding `max` (here with arity 1 and a
constant callable) is ignored in favour of the built-in `max`. -/
theorem c4_witness :
    parseEval "max(1,2)" noVars
      (fun n => if n = "max" then some ⟨some 1, fun _ => 99⟩ else none)
      = Except.ok 2 :=
  c4_builtin_shadows.2.2.2 ⟨some 1, fun _ => 99⟩

/-- C5: a call whose resolved function declares a fixed arity `n` fails
with the message naming the function, `n`, and the actual argument count
whenever the counts differ, and otherwise applies the callable to the
evaluated arguments. -/
theorem c5_arity :
    ∀ (name : String) (k : Nat) (args : List Node) (vars : String → Option ℚ)
      (fns : String → Option FuncDef) (fd : FuncDef) (n : Nat),
      resolveFunc name fns = some fd →
      fd.length = some n →
      (args.length ≠ n →
        evaluate (Node.func name k args) vars fns
          = Except.error (arityMsg name n args.length))
      ∧ (∀ vs : List ℚ, args.length = n → evalList args vars fns = Except.ok vs →
        evaluate (Node.func name k args) vars fns = Except.ok (fd.fn vs)) := by
  intro name k args vars fns fd n hres hlen
  constructor
  · intro hne
    rw [evaluate_func, hres]
    simp only [evalCall, hlen]
    rw [if_neg (fun e => hne e.symm)]
    rfl
  · intro vs heq he
    rw [evaluate_func, hres]
    simp only [evalCall, hlen]
    rw [if_pos heq.symm, he, exBindOk]
    rfl

/-- The fixed-arity caller function of the C5 witness. -/
def mult3 : List ℚ → ℚ := fun vs => vs.foldl (fun a b => a * b) 1

/-- A caller function context binding `multiply3` with arity 3. -/
def mult3Fns : String → Option FuncDef :=
  fun s => if s = "multiply3" then some ⟨some 3, mult3⟩ else none

/-- C5, witness: `multiply3` of arity 3 called with 2 and with 5 arguments
fails with the exact messages, and with 3 arguments returns the product. -/
theorem c5_witness :
    parseEval "multiply3(3, 4)" noVars mult3Fns
      = Except.error "Function \"multiply3\" expected 3 arguments, but got 2"
    ∧ parseEval "multiply3(3, 4, 5, 6, 7)" noVars mult3Fns
      = Except.error "Function \"multiply3\" expected 3 arguments, but got 5"
    ∧ parseEval "multiply3(3, 4, 5)" noVars mult3Fns = Except.ok 60 := by
  have hp2 : parse "multiply3(3, 4)" =
      Except.ok (Node.func "multiply3" 2 [Node.num "3", Node.num "4"]) := by decide
  have hp5 : parse "multiply3(3, 4, 5, 6, 7)" =
      Except.ok (Node.func "multiply3" 5 [Node.num "3", Node.num "4",
        Node.num "5", Node.num "6", Node.num "7"]) := by decide
  have hp3 : parse "multiply3(3, 4, 5)" =
      Except.ok (Node.func "multiply3" 3 [Node.num "3", Node.num "4",
        Node.num "5"]) := by decide
  refine ⟨?_, ?_, ?_⟩
  · simp only [parseEval, hp2, exBindOk]
    have h := (c5_arity "multiply3" 2 [Node.num "3", Node.num "4"] noVars
      mult3Fns ⟨some 3, mult3⟩ 3 rfl rfl).1 (by decide)
    rw [h]
    decide
  · simp only [parseEval, hp5, exBindOk]
    have h := (c5_arity "multiply3" 5 [Node.num "3", Node.num "4",
      Node.num "5", Node.num "6", Node.num "7"] noVars
      mult3Fns ⟨some 3, mult3⟩ 3 rfl rfl).1 (by decide)
    rw [h]
    decide
  · simp only [parseEval, hp3, exBindOk]
    have h := (c5_arity "multiply3" 3 [Node.num "3", Node.num "4",
      Node.num "5"] noVars mult3Fns ⟨some 3, mult3⟩ 3 rfl rfl).2
      [3, 4, 5] rfl (by decide)
    rw [h]
    decide

/-- C6: a `/` node evaluates its left operand, then its right operand; it
fails with "Division by zero" exactly when the evaluated right operand is
zero and otherwise returns the quotient; a failure in either operand
propagates (left first). -/
theorem c6_division :
    ∀ (l r : Node) (vars : String → Option ℚ) (fns : String → Option FuncDef),
      (∀ e : Err, evaluate l vars fns = Except.error e →
        evaluate (Node.binOp "/" l r) vars fns = Except.error e)
      ∧ (∀ (a : ℚ) (e : Err), evaluate l vars fns = Except.ok a →
        evaluate r vars fns = Except.error e →
        evaluate (Node.binOp "/" l r) vars fns = Except.error e)
      ∧ (∀ (a b : ℚ), evaluate l vars fns = Except.ok a →
        evaluate r vars fns = Except.ok b →
        ((evaluate (Node.binOp "/" l r) vars fns
            = Except.error "Division by zero") ↔ b = 0)
        ∧ (b ≠ 0 →
          evaluate (Node.binOp "/" l r) vars fns = Except.ok (a / b))) := by
  intro l r vars fns
  have hunf : evaluate (Node.binOp "/" l r) vars fns = (do
      let a ← evaluate l vars fns
      let b ← evaluate r vars fns
      if b = 0 then throw "Division by zero"
      else pure (a / b)) := rfl
  refine ⟨?_, ?_, ?_⟩
  · intro e he
    rw [hunf, he, exBindErr]
  · intro a e ha he
    rw [hunf, ha, exBindOk, he, exBindErr]
  · intro a b ha hb
    rw [hunf, ha, exBindOk, hb, exBindOk]
    constructor
    · constructor
      · intro h
        by_contra hb0
        rw [if_neg hb0] at h
        exact absurd h (by simp [pure, Except.pure])
      · intro hb0
        rw [if_pos hb0]
        rfl
    · intro hb0
      rw [if_neg hb0]
      rfl

/-- C6, witness: `1/0` fails with "Division by zero"; `6/3` returns the
quotient `2`. -/
theorem c6_witness :
    evaluate (Node.binOp "/" (Node.num "1") (Node.num "0")) noVars noFns
      = Except.error "Division by zero"
    ∧ evaluate (Node.binOp "/" (Node.num "6") (Node.num "3")) noVars noFns
      = Except.ok 2 := by
  constructor
  · exact ((c6_division (Node.num "1") (Node.num "0") noVars noFns).2.2 1 0
      (by decide) (by decide)).1.mpr rfl
  · have h := ((c6_division (Node.num "6") (Node.num "3") noVars noFns).2.2 6 3
      (by decide) (by decide)).2 (by norm_num)
    rw [h]
    have : (6 : ℚ) / 3 = 2 := by norm_num
    rw [this]

/-- C7: the reference precedence example: evaluating the parse of
`5+3.12*2^4/1+3*(19-3)` with no contexts yields exactly `102.92`, that is
the exact rational `2573/25`. -/
theorem c7_precedence_value :
    parseEval "5+3.12*2^4/1+3*(19-3)" noVars noFns = Except.ok (102.92 : ℚ)
    ∧ (102.92 : ℚ) = 2573 / 25 := by
  exact ⟨by decide, by decide⟩

/-- C8: a numeral run with more than one `.` (such as `1.2.3`) is rejected
by the lexer (`readNumber`), so `parse` fails with the invalid-number
message; the single-`.` numeral `"."` parses into a `NumberLiteral` node,
and only its evaluation fails with the invalid-number message. -/
theorem c8_numeral :
    readNumber "1.2.3".data = Except.error "Invalid Number: 1.2.3"
    ∧ parse "1.2.3" = Except.error "Invalid Number: 1.2.3"
    ∧ parse "." = Except.ok (Node.num ".")
    ∧ evaluate (Node.num ".") noVars noFns = Except.error "Invalid Number: ."
    ∧ parseEval "." noVars noFns = Except.error "Invalid Number: ." := by
  refine ⟨by decide, by decide, by decide, by decide, by decide⟩

/-- C9: every tree returned by a successful `parse` satisfies the
structural invariant `treeOk`: it contains no `Sentinel`, and every `Call`
node's argument list has exactly its declared number of arguments (the
count of comma-separated sub-expressions `F` recorded); the concrete call
`f(1,2,3)` yields its three arguments in left-to-right source order. -/
theorem c9_invariant :
    (∀ (inp : String) (t : Node), parse inp = Except.ok t → treeOk t = true)
    ∧ parse "f(1,2,3)" = Except.ok (Node.func "f" 3
        [Node.num "1", Node.num "2", Node.num "3"]) :=
  ⟨fun _ _ h => parse_treeOk h, by decide⟩

/-- C9, witness: the invariant evaluated on the parse of `f(1,2,3)`. -/
theorem c9_witness :
    treeOk (Node.func "f" 3 [Node.num "1", Node.num "2", Node.num "3"]) = true :=
  c9_invariant.1 "f(1,2,3)"
    (Node.func "f" 3 [Node.num "1", Node.num "2", Node.num "3"]) (by decide)

/-- C10: the argument-list parser `F` begins by parsing an expression
unconditionally, so a call with empty parentheses puts `P` in front of the
token `)` and fails with `Invalid syntax at ")"` at every fuel depth;
in particular `parse("f()")` fails with that message, and zero-argument
calls are not expressible. -/
theorem c10_empty_call :
    (∀ (fuel : Nat) (rest : List Char) (ops vals : List Node),
      F (fuel + 3) ⟨")", rest, ops, vals⟩
        = Except.error "Invalid syntax at \")\"")
    ∧ parse "f()" = Except.error "Invalid syntax at \")\"" := by
  refine ⟨?_, by decide⟩
  intro fuel rest ops vals
  have hP : P (fuel + 1) ⟨")", rest, ops, vals⟩
      = Except.error "Invalid syntax at \")\"" := by
    rw [P_succ]
    simp only [show (PSt.mk ")" rest ops vals).next = ")" from rfl]
    rw [if_neg (by decide : ¬(isNumber ")" = true))]
    rw [if_neg (by decide : ¬((")" : String) = "("))]
    rw [if_neg (by decide : ¬((unaryOperators ")").isSome = true))]
    rw [if_neg (by decide : ¬(isVariable ")" = true))]
    rfl
  have hE : E (fuel + 2) ⟨")", rest, ops, vals⟩
      = Except.error "Invalid syntax at \")\"" := by
    rw [E_succ, hP, exBindErr]
  show F (fuel + 2 + 1) ⟨")", rest, ops, vals⟩ = _
  rw [F_succ, hE, exBindErr]

end Claims

end ExpressionParser
